import Mathlib

/-!
Verification of the LogoMaster Pro logo compositor.

Shallow embedding of `ImageProcessor.apply_logo` (src/image_processor.py,
lines 262-356) and the configuration it reads (src/config.py, lines 98-116),
together with theorems settling the frozen claims about the compositor.

Modelling conventions:
* A PIL image is a `RasterImage`: width, height, an RGBA flag (`hasAlpha`,
  PIL mode `'RGBA'` vs `'RGB'`), and a total pixel function.  For an RGB-mode
  image the nominal alpha component of each pixel is 255.
* Python floats are modelled by exact rationals (`ℚ`); `int(...)` applied to a
  float is truncation toward zero (`pyInt`).
* PIL calls that raise exceptions inside the `try` block of `apply_logo`
  (`ZeroDivisionError` from `logo_width / self.current_logo.size[0]` when the
  logo width is 0, and the `ValueError` PIL raises from `resize` on a negative
  target size) are modelled as `none` results, because the enclosing
  `except` clause makes `apply_logo` return `None` there.
* The Lanczos resampling filter of `Image.resize` is a PIL internal; it is
  modelled as nearest-neighbour sampling.  No claim depends on the filter:
  only the target dimensions, purity, and mode of the result matter here.
* `ImageEnhance.Brightness(alpha).enhance(opacity)` multiplies every alpha
  sample by `opacity`; the C implementation truncates, modelled by `pyInt`.
* `Image.paste(im, box, mask)` blends each channel as
  `out = im*mask/255 + base*(255-mask)/255`, modelled per-channel with
  truncating natural division.
-/

/-- One pixel: red, green, blue, alpha samples (0..255).  For an image in RGB
mode the alpha component is the nominal 255. -/
structure Pixel where
  r : Nat
  g : Nat
  b : Nat
  a : Nat
deriving DecidableEq

/-- A raster image as loaded by PIL: dimensions, mode flag and pixel grid. -/
structure RasterImage where
  width : Nat
  height : Nat
  hasAlpha : Bool
  pixel : Nat → Nat → Pixel

instance : Inhabited RasterImage :=
  ⟨⟨0, 0, false, fun _ _ => ⟨0, 0, 0, 0⟩⟩⟩

/-- Python `int()` on a (rational-modelled) float: truncation toward zero. -/
def pyInt (q : ℚ) : Int :=
  if 0 ≤ q then ⌊q⌋ else ⌈q⌉

/-- config.py line 99: `'default_logo_size': 0.1`. -/
def default_logo_size : ℚ := 1/10

/-- config.py line 100: `'default_opacity': 0.8`. -/
def default_opacity : ℚ := 4/5

/-- config.py line 101: `'default_position': 'bottom_right'`. -/
def default_position : String := "bottom_right"

/-- config.py line 102: `'logo_margin': 20`. -/
def logo_margin : Int := 20

/-- config.py lines 106-116: the `LOGO_POSITIONS` dictionary mapping the nine
anchor names to relative coordinates. -/
def LOGO_POSITIONS (name : String) : Option (ℚ × ℚ) :=
  if name = "top_left" then some (0, 0)
  else if name = "top_center" then some (1/2, 0)
  else if name = "top_right" then some (1, 0)
  else if name = "center_left" then some (0, 1/2)
  else if name = "center" then some (1/2, 1/2)
  else if name = "center_right" then some (1, 1/2)
  else if name = "bottom_left" then some (0, 1)
  else if name = "bottom_center" then some (1/2, 1)
  else if name = "bottom_right" then some (1, 1)
  else none

/-- The keyword arguments accepted by `apply_logo` (image_processor.py lines
262-273): each field is `none` when the caller omits it. -/
structure LogoKwargs where
  position : Option String := none
  size : Option ℚ := none
  opacity : Option ℚ := none
  margin : Option Int := none
  custom_position : Option (Int × Int) := none

/-- The settings dictionary after `settings = self.default_settings.copy();
settings.update(kwargs)` (image_processor.py lines 283-291). -/
structure ResolvedSettings where
  position : String
  size : ℚ
  opacity : ℚ
  margin : Int
  custom_position : Option (Int × Int)

/-- image_processor.py lines 283-291: defaults from `self.default_settings`
(image_processor.py lines 44-49, reading IMAGE_CONFIG) overridden by kwargs;
`custom_position` has no default and comes from kwargs alone. -/
def resolveSettings (k : LogoKwargs) : ResolvedSettings :=
  { position := k.position.getD default_position
    size := k.size.getD default_logo_size
    opacity := k.opacity.getD default_opacity
    margin := k.margin.getD logo_margin
    custom_position := k.custom_position }

/-- image_processor.py line 298: `logo_width = int(img_width * logo_size)`. -/
def logoWidthOf (imgWidth : Nat) (logoSize : ℚ) : Int :=
  pyInt ((imgWidth : ℚ) * logoSize)

/-- image_processor.py line 299:
`logo_height = int(current_logo.height * (logo_width / current_logo.width))`. -/
def logoHeightOf (logo : RasterImage) (logoWidth : Int) : Int :=
  pyInt ((logo.height : ℚ) * ((logoWidth : ℚ) / (logo.width : ℚ)))

/-- image_processor.py lines 301-305: `current_logo.resize((w, h), LANCZOS)`.
The resampling filter is modelled as nearest-neighbour (see module header);
dimensions and mode are the faithful part. -/
def resizeImg (img : RasterImage) (w h : Nat) : RasterImage :=
  { width := w
    height := h
    hasAlpha := img.hasAlpha
    pixel := fun i j => img.pixel (i * img.width / w) (j * img.height / h) }

/-- image_processor.py line 310: `resized_logo.convert('RGBA')` on an RGB
image: the new alpha channel is fully opaque. -/
def toRGBA (img : RasterImage) : RasterImage :=
  { img with
    hasAlpha := true
    pixel := fun i j => { img.pixel i j with a := 255 } }

/-- image_processor.py line 314: one alpha sample after
`ImageEnhance.Brightness(alpha).enhance(opacity)` — multiplication by the
factor with truncation. -/
def scaleAlpha (a : Nat) (opacity : ℚ) : Nat :=
  (pyInt ((a : ℚ) * opacity)).toNat

/-- image_processor.py lines 313-315: scale the alpha band by `opacity` and
`putalpha` it back. -/
def putalphaScaled (img : RasterImage) (opacity : ℚ) : RasterImage :=
  { img with
    hasAlpha := true
    pixel := fun i j => { img.pixel i j with a := scaleAlpha (img.pixel i j).a opacity } }

/-- image_processor.py lines 307-315: `if opacity < 1.0`, convert to RGBA when
needed and multiply the alpha channel by `opacity`; otherwise leave the
resized logo untouched. -/
def applyOpacity (img : RasterImage) (opacity : ℚ) : RasterImage :=
  if opacity < 1 then
    putalphaScaled (if img.hasAlpha then img else toRGBA img) opacity
  else img

/-- image_processor.py lines 317-339: the pre-clamp position.  A (truthy)
`custom_position` skips the anchor computation; otherwise the anchor's
relative coordinates are looked up (unknown names fall back to
`LOGO_POSITIONS['bottom_right'] = (1, 1)`, line 324), the absolute position is
`int((dim_difference) * rel)` and the margin is applied on the touched
edges (lines 331-339). -/
def rawPosition (imgWidth imgHeight : Nat) (logoWidth logoHeight : Int)
    (s : ResolvedSettings) : Int × Int :=
  match s.custom_position with
  | some p => p
  | none =>
    let rel : ℚ × ℚ := match LOGO_POSITIONS s.position with
      | some r => r
      | none => ((1 : ℚ), (1 : ℚ))
    let x := pyInt ((((imgWidth : Int) - logoWidth : Int) : ℚ) * rel.1)
    let y := pyInt ((((imgHeight : Int) - logoHeight : Int) : ℚ) * rel.2)
    let x := if rel.1 = 0 then x + s.margin else if rel.1 = 1 then x - s.margin else x
    let y := if rel.2 = 0 then y + s.margin else if rel.2 = 1 then y - s.margin else y
    (x, y)

/-- image_processor.py lines 341-343: `max(0, min(v, limit))`. -/
def clampCoord (v limit : Int) : Int :=
  max 0 (min v limit)

/-- One blended channel of `Image.paste` with a mask:
`out = logo*mask/255 + base*(255-mask)/255` with truncating division. -/
def blendChannel (baseC logoC mask : Nat) : Nat :=
  (logoC * mask + baseC * (255 - mask)) / 255

/-- One blended pixel of `Image.paste` with the logo itself as mask (its alpha
band). -/
def blendPixel (basePx logoPx : Pixel) : Pixel :=
  { r := blendChannel basePx.r logoPx.r logoPx.a
    g := blendChannel basePx.g logoPx.g logoPx.a
    b := blendChannel basePx.b logoPx.b logoPx.a
    a := blendChannel basePx.a logoPx.a logoPx.a }

/-- image_processor.py lines 345-349: paste the (possibly RGBA) logo onto the
copy of the base at `(x, y)`; with an RGBA logo the logo is its own paste
mask, otherwise pixels are replaced outright.  Dimensions and mode of the
base are unchanged; areas of the logo falling outside the base are cropped
implicitly (such pixels are outside the base grid). -/
def pasteImg (base lg : RasterImage) (x y : Int) : RasterImage :=
  { base with
    pixel := fun i j =>
      if x ≤ (i : Int) ∧ (i : Int) < x + lg.width ∧
         y ≤ (j : Int) ∧ (j : Int) < y + lg.height then
        let px := lg.pixel ((i : Int) - x).toNat ((j : Int) - y).toNat
        if lg.hasAlpha then blendPixel (base.pixel i j) px else px
      else base.pixel i j }

/-- The processor state relevant to `apply_logo`: `self.current_logo`
(image_processor.py line 40, set by `load_logo`). -/
structure ProcState where
  current_logo : Option RasterImage

/-- image_processor.py lines 278-343, everything before the final paste:
the loaded-logo check, settings resolution, size computation, resize,
opacity application, position computation and clamping.  Returns the
processed logo together with the clamped paste position, or `none` where
the Python code returns `None` (no logo, or an exception caught by the
`except` clause: division by a zero logo width, negative resize target). -/
def compositeParams (st : ProcState) (image : RasterImage) (k : LogoKwargs) :
    Option (RasterImage × Int × Int) :=
  match st.current_logo with
  | none => none
  | some logo =>
    let s := resolveSettings k
    if logo.width = 0 then none
    else
      let lw := logoWidthOf image.width s.size
      let lh := logoHeightOf logo lw
      if lw < 0 ∨ lh < 0 then none
      else
        let resized := applyOpacity (resizeImg logo lw.toNat lh.toNat) s.opacity
        let p := rawPosition image.width image.height lw lh s
        let x := clampCoord p.1 ((image.width : Int) - lw)
        let y := clampCoord p.2 ((image.height : Int) - lh)
        some (resized, x, y)

/-- image_processor.py lines 262-356: `ImageProcessor.apply_logo`.  The final
paste (lines 345-349) happens on `result = image.copy()` (line 294). -/
def applyLogo (st : ProcState) (image : RasterImage) (k : LogoKwargs) :
    Option RasterImage :=
  (compositeParams st image k).map fun q => pasteImg image q.1 q.2.1 q.2.2

/-- Modelled from the spec: the `round` used in the spec's formulas
`height = round(original_height × (target_width / original_width))` and
`round((base_dim − logo_dim) × relCoord)`, read as rounding half up.  (At every
input used below the fractional part is exactly one half and rounds to an even
integer, so Python's banker rounding gives the same value.) -/
def specRound (q : ℚ) : Int := ⌊q + 1/2⌋

/-- Modelled from the spec: the anchor formula of claim C3 as stated —
`round((base_dim − logo_dim) × relCoord)` followed by the margin rule. -/
def specAnchorCoord (dim logoDim : Int) (rel : ℚ) (margin : Int) : Int :=
  let v := specRound (((dim - logoDim : Int) : ℚ) * rel)
  if rel = 0 then v + margin else if rel = 1 then v - margin else v

/-- The anchor formula the code actually computes: `int(...)` truncation
toward zero instead of the spec's `round`, followed by the same margin rule
(image_processor.py lines 327-339). -/
def truncAnchorCoord (dim logoDim : Int) (rel : ℚ) (margin : Int) : Int :=
  let v := pyInt (((dim - logoDim : Int) : ℚ) * rel)
  if rel = 0 then v + margin else if rel = 1 then v - margin else v

/-- Modelled from the spec: `compositeParams` with the alpha-scaling step
removed, i.e. the logo composited with no alpha scaling applied — the
reference point of the spec's sentence `Opacity = 1.0 reproduces byte-identical
output to compositing with a fully opaque logo (no alpha scaling applied)`. -/
def compositeParamsNoAlpha (st : ProcState) (image : RasterImage)
    (k : LogoKwargs) : Option (RasterImage × Int × Int) :=
  match st.current_logo with
  | none => none
  | some logo =>
    let s := resolveSettings k
    if logo.width = 0 then none
    else
      let lw := logoWidthOf image.width s.size
      let lh := logoHeightOf logo lw
      if lw < 0 ∨ lh < 0 then none
      else
        let resized := resizeImg logo lw.toNat lh.toNat
        let p := rawPosition image.width image.height lw lh s
        let x := clampCoord p.1 ((image.width : Int) - lw)
        let y := clampCoord p.2 ((image.height : Int) - lh)
        some (resized, x, y)

/-- Modelled from the spec: `applyLogo` with no alpha scaling applied. -/
def applyLogoNoAlpha (st : ProcState) (image : RasterImage) (k : LogoKwargs) :
    Option RasterImage :=
  (compositeParamsNoAlpha st image k).map fun q => pasteImg image q.1 q.2.1 q.2.2

/-- A heap of PIL image objects, used to make the mutation behaviour of
`apply_logo` explicit: PIL `copy`, `resize` and `convert` allocate fresh
images, while `putalpha` and `paste` mutate the image they are called on. -/
structure Store where
  imgs : List RasterImage

/-- Dereference an image handle. -/
def Store.get (s : Store) (r : Nat) : RasterImage :=
  (s.imgs[r]?).getD default

/-- Allocate a fresh image, returning its handle. -/
def Store.alloc (s : Store) (img : RasterImage) : Nat × Store :=
  (s.imgs.length, ⟨s.imgs ++ [img]⟩)

/-- Overwrite the image behind a handle (in-place mutation). -/
def Store.set (s : Store) (r : Nat) (img : RasterImage) : Store :=
  ⟨s.imgs.set r img⟩

/-- `apply_logo` replayed over the image heap, mirroring which PIL calls
allocate and which mutate (image_processor.py lines 278-352):
`result = image.copy()` allocates (line 294); `current_logo.resize` allocates
(lines 302-305); `convert('RGBA')` allocates and rebinds the local variable
(line 310); `putalpha` mutates the image the local variable points to
(line 315); `result.paste` mutates `result` (lines 347-349).  The stored logo
and the base image argument are only ever read. -/
def applyLogoProg (s0 : Store) (logoRef : Option Nat) (imageRef : Nat)
    (k : LogoKwargs) : Option Nat × Store :=
  match logoRef with
  | none => (none, s0)
  | some lr =>
    let s := resolveSettings k
    let image := s0.get imageRef
    let logo := s0.get lr
    let a1 := s0.alloc image
    let resultRef := a1.1
    let s1 := a1.2
    if logo.width = 0 then (none, s1)
    else
      let lw := logoWidthOf image.width s.size
      let lh := logoHeightOf logo lw
      if lw < 0 ∨ lh < 0 then (none, s1)
      else
        let a2 := s1.alloc (resizeImg logo lw.toNat lh.toNat)
        let resizedRef := a2.1
        let s2 := a2.2
        let step :=
          if s.opacity < 1 then
            let r0 := s2.get resizedRef
            let a3 := if r0.hasAlpha then (resizedRef, s2) else s2.alloc (toRGBA r0)
            let ref1 := a3.1
            let sA := a3.2
            (ref1, sA.set ref1 (putalphaScaled (sA.get ref1) s.opacity))
          else (resizedRef, s2)
        let rRef := step.1
        let s3 := step.2
        let p := rawPosition image.width image.height lw lh s
        let x := clampCoord p.1 ((image.width : Int) - lw)
        let y := clampCoord p.2 ((image.height : Int) - lh)
        let s4 := s3.set resultRef (pasteImg (s3.get resultRef) (s3.get rRef) x y)
        (some resultRef, s4)

/-- Concrete 2×2 RGB logo used for witnesses and counterexamples. -/
def logoW : RasterImage := ⟨2, 2, false, fun _ _ => ⟨100, 150, 200, 255⟩⟩

/-- Concrete 10×10 RGB base image used for witnesses and counterexamples. -/
def baseW : RasterImage := ⟨10, 10, false, fun _ _ => ⟨1, 2, 3, 255⟩⟩

/-- Processor state with `logoW` loaded. -/
def stW : ProcState := ⟨some logoW⟩

/-- Concrete keyword arguments: top-left anchor, size 1/5, opacity 1,
margin 0. -/
def kW : LogoKwargs := ⟨some "top_left", some (1/5), some 1, some 0, none⟩

/-- The processed logo `apply_logo` pastes for `stW`/`baseW`/`kW`. -/
def resizedW : RasterImage := applyOpacity (resizeImg logoW 2 2) 1

/-- Concrete 4×7 RGB logo whose aspect scaling hits a half-integer height. -/
def logoCE : RasterImage := ⟨4, 7, false, fun _ _ => ⟨0, 0, 0, 255⟩⟩

/-- Concrete image heap holding `logoW` (handle 0) and `baseW` (handle 1). -/
def storeW : Store := ⟨[logoW, baseW]⟩

/-! Helper lemmas. -/

theorem pyInt_of_nonneg {q : ℚ} (h : 0 ≤ q) : pyInt q = ⌊q⌋ := if_pos h

theorem pyInt_nonneg {q : ℚ} (h : 0 ≤ q) : 0 ≤ pyInt q := by
  rw [pyInt_of_nonneg h]
  exact Int.floor_nonneg.mpr h

theorem logoWidthOf_nonneg (W : Nat) {s : ℚ} (hs : 0 ≤ s) :
    0 ≤ logoWidthOf W s :=
  pyInt_nonneg (mul_nonneg (Nat.cast_nonneg W) hs)

theorem logoHeightOf_nonneg (logo : RasterImage) {lw : Int} (h : 0 ≤ lw) :
    0 ≤ logoHeightOf logo lw :=
  pyInt_nonneg (mul_nonneg (Nat.cast_nonneg _)
    (div_nonneg (by exact_mod_cast h) (Nat.cast_nonneg _)))

theorem applyOpacity_width (img : RasterImage) (op : ℚ) :
    (applyOpacity img op).width = img.width := by
  unfold applyOpacity putalphaScaled toRGBA
  split
  · dsimp only
    split <;> rfl
  · rfl

theorem applyOpacity_height (img : RasterImage) (op : ℚ) :
    (applyOpacity img op).height = img.height := by
  unfold applyOpacity putalphaScaled toRGBA
  split
  · dsimp only
    split <;> rfl
  · rfl

theorem compositeParams_isSome_of (logo image : RasterImage) (k : LogoKwargs)
    (hw : logo.width ≠ 0) (hs : 0 ≤ (resolveSettings k).size) :
    (compositeParams ⟨some logo⟩ image k).isSome = true := by
  have hlw : 0 ≤ logoWidthOf image.width (resolveSettings k).size :=
    logoWidthOf_nonneg _ hs
  have hlh : 0 ≤ logoHeightOf logo (logoWidthOf image.width (resolveSettings k).size) :=
    logoHeightOf_nonneg _ hlw
  unfold compositeParams
  dsimp only
  rw [if_neg hw, if_neg (by simp only [not_or, not_lt]; exact ⟨hlw, hlh⟩)]
  rfl

/-! Claim theorems. -/

/-- C5 (confirmed): with no logo loaded, `apply_logo` fails — it returns no
composited image at all (the `None` early return of image_processor.py lines
278-280, the failure the spec names `InvalidInput`). -/
theorem c5_no_logo_fails (image : RasterImage) (k : LogoKwargs) :
    applyLogo ⟨none⟩ image k = none := rfl

/-- C9 (confirmed): every placement parameter omitted from the call is filled
from the built-in defaults of config.py lines 98-102 — position
`bottom_right`, relative size 1/10, opacity 4/5, margin 20 — and the default
opacity is strictly below 1, so by default the logo is not composited fully
opaque. -/
theorem c9_default_settings (k : LogoKwargs) :
    (k.position = none → (resolveSettings k).position = "bottom_right") ∧
    (k.size = none → (resolveSettings k).size = 1/10) ∧
    (k.opacity = none →
      (resolveSettings k).opacity = 4/5 ∧ (resolveSettings k).opacity < 1) ∧
    (k.margin = none → (resolveSettings k).margin = 20) := by
  refine ⟨fun h => ?_, fun h => ?_, fun h => ?_, fun h => ?_⟩ <;>
    norm_num [resolveSettings, h, default_position, default_logo_size,
      default_opacity, logo_margin]

/-- C9 witness: the defaults at the empty keyword set. -/
theorem c9_default_settings_witness :
    (resolveSettings {}).position = "bottom_right" ∧
    (resolveSettings {}).size = 1/10 ∧
    ((resolveSettings {}).opacity = 4/5 ∧ (resolveSettings {}).opacity < 1) ∧
    (resolveSettings {}).margin = 20 := by
  have h := c9_default_settings {}
  exact ⟨h.1 rfl, h.2.1 rfl, h.2.2.1 rfl, h.2.2.2 rfl⟩

/-- C1 counterexample: with `relative_size = 1.2` — outside the range `(0, 1]`
the claim requires to be rejected — `apply_logo` still produces a composited
image instead of failing with an error. -/
theorem c1_counterexample :
    (applyLogo ⟨some logoW⟩ baseW { size := some (6/5) }).isSome = true := by
  with_unfolding_all decide

/-- C1 (amended): `apply_logo` performs no range validation of
`relative_size` or `opacity` at all: for any loaded logo of nonzero width it
returns a composited image both for `relative_size = 1.2` and for
`opacity = 1.5`. -/
theorem c1_no_range_validation (logo image : RasterImage)
    (hw : logo.width ≠ 0) :
    (applyLogo ⟨some logo⟩ image { size := some (6/5) }).isSome = true ∧
    (applyLogo ⟨some logo⟩ image { opacity := some (3/2) }).isSome = true := by
  constructor <;>
  · unfold applyLogo
    rw [Option.isSome_map']
    exact compositeParams_isSome_of _ _ _ hw
      (by norm_num [resolveSettings, default_logo_size])

/-- C1 witness: the amended theorem applied at the concrete logo and base. -/
theorem c1_no_range_validation_witness :
    (applyLogo ⟨some logoW⟩ baseW { size := some (6/5) }).isSome = true ∧
    (applyLogo ⟨some logoW⟩ baseW { opacity := some (3/2) }).isSome = true :=
  c1_no_range_validation logoW baseW (by decide)

/-- C2 counterexample: for the 4×7 logo `logoCE`, base width 20 and
`relative_size = 1/10` the target width is 2 and the code computes height
`int(7 * (2/4)) = 3`, while the claim's formula
`round(original_height * (target_width / original_width))` gives 4. -/
theorem c2_counterexample :
    logoHeightOf logoCE (logoWidthOf 20 (1/10)) ≠
      specRound ((logoCE.height : ℚ) *
        (((logoWidthOf 20 (1/10) : Int) : ℚ) / (logoCE.width : ℚ))) := by
  with_unfolding_all decide

/-- C2 (amended): for a loaded logo of size `(w0, h0)` with `w0 > 0`, base
width `W` and `relative_size s ∈ (0, 1]`, the resized logo has width
`⌊W * s⌋` and height `⌊h0 * ⌊W * s⌋ / w0⌋` — truncation, as Python `int()`,
not `round` — and the aspect ratio is still preserved within one pixel of
rounding error. -/
theorem c2_resize_truncates (logo : RasterImage) (W : Nat) (s : ℚ)
    (hs0 : 0 < s) (_hs1 : s ≤ 1) (hw : 0 < logo.width) :
    logoWidthOf W s = ⌊(W : ℚ) * s⌋ ∧
    logoHeightOf logo (logoWidthOf W s) =
      ⌊(logo.height : ℚ) * ((logoWidthOf W s : Int) : ℚ) / (logo.width : ℚ)⌋ ∧
    (logo.width : ℚ) * ((logoHeightOf logo (logoWidthOf W s) : Int) : ℚ) ≤
      (logo.height : ℚ) * ((logoWidthOf W s : Int) : ℚ) ∧
    (logo.height : ℚ) * ((logoWidthOf W s : Int) : ℚ) <
      (logo.width : ℚ) * (((logoHeightOf logo (logoWidthOf W s) : Int) : ℚ) + 1) := by
  have hWs : (0 : ℚ) ≤ (W : ℚ) * s := mul_nonneg (Nat.cast_nonneg W) hs0.le
  have h1 : logoWidthOf W s = ⌊(W : ℚ) * s⌋ := pyInt_of_nonneg hWs
  have hlw : (0 : ℚ) ≤ ((logoWidthOf W s : Int) : ℚ) := by
    have := logoWidthOf_nonneg W hs0.le
    exact_mod_cast this
  have hwQ : (0 : ℚ) < (logo.width : ℚ) := by exact_mod_cast hw
  set lwq : ℚ := ((logoWidthOf W s : Int) : ℚ) with hlwq
  have hassoc : (logo.height : ℚ) * (lwq / (logo.width : ℚ)) =
      (logo.height : ℚ) * lwq / (logo.width : ℚ) := (mul_div_assoc _ _ _).symm
  have ht0 : (0 : ℚ) ≤ (logo.height : ℚ) * (lwq / (logo.width : ℚ)) :=
    mul_nonneg (Nat.cast_nonneg _) (div_nonneg hlw hwQ.le)
  have h2 : logoHeightOf logo (logoWidthOf W s) =
      ⌊(logo.height : ℚ) * lwq / (logo.width : ℚ)⌋ := by
    unfold logoHeightOf
    rw [pyInt_of_nonneg ht0, hassoc]
  refine ⟨h1, h2, ?_, ?_⟩
  · rw [h2]
    have hfl : (↑⌊(logo.height : ℚ) * lwq / (logo.width : ℚ)⌋ : ℚ) ≤
        (logo.height : ℚ) * lwq / (logo.width : ℚ) := Int.floor_le _
    calc (logo.width : ℚ) * (↑⌊(logo.height : ℚ) * lwq / (logo.width : ℚ)⌋ : ℚ)
        ≤ (logo.width : ℚ) * ((logo.height : ℚ) * lwq / (logo.width : ℚ)) :=
          mul_le_mul_of_nonneg_left hfl hwQ.le
      _ = (logo.height : ℚ) * lwq := by field_simp
  · rw [h2]
    have hfu : (logo.height : ℚ) * lwq / (logo.width : ℚ) <
        (↑⌊(logo.height : ℚ) * lwq / (logo.width : ℚ)⌋ : ℚ) + 1 :=
      Int.lt_floor_add_one _
    calc (logo.height : ℚ) * lwq
        = (logo.width : ℚ) * ((logo.height : ℚ) * lwq / (logo.width : ℚ)) := by
          field_simp
      _ < (logo.width : ℚ) * ((↑⌊(logo.height : ℚ) * lwq / (logo.width : ℚ)⌋ : ℚ) + 1) :=
          mul_lt_mul_of_pos_left hfu hwQ

/-- C2 witness: the amended theorem applied to the 4×7 logo, base width 20,
relative size 1/10. -/
theorem c2_resize_truncates_witness :
    logoWidthOf 20 (1/10) = ⌊(20 : ℚ) * (1/10)⌋ ∧
    logoHeightOf logoCE (logoWidthOf 20 (1/10)) =
      ⌊(logoCE.height : ℚ) * ((logoWidthOf 20 (1/10) : Int) : ℚ) / (logoCE.width : ℚ)⌋ ∧
    (logoCE.width : ℚ) * ((logoHeightOf logoCE (logoWidthOf 20 (1/10)) : Int) : ℚ) ≤
      (logoCE.height : ℚ) * ((logoWidthOf 20 (1/10) : Int) : ℚ) ∧
    (logoCE.height : ℚ) * ((logoWidthOf 20 (1/10) : Int) : ℚ) <
      (logoCE.width : ℚ) * (((logoHeightOf logoCE (logoWidthOf 20 (1/10)) : Int) : ℚ) + 1) :=
  c2_resize_truncates logoCE 20 (1/10) (by norm_num) (by norm_num) (by decide)

/-- C3 counterexample: for the `center` anchor on a 9×9 base with a 2×2 logo
(margin 0), the code places the logo at `int(3.5) = 3` while the claim's
`round((base_dim − logo_dim) × relCoord)` gives 4. -/
theorem c3_counterexample :
    rawPosition 9 9 2 2 ⟨"center", 1/10, 4/5, 0, none⟩ ≠
      (specAnchorCoord 9 2 (1/2) 0, specAnchorCoord 9 2 (1/2) 0) := by
  with_unfolding_all decide

/-- C3 (amended): each of the nine enumerated anchors has relative
coordinates in `{0, 1/2, 1}²`; the pre-clamp placement truncates toward zero
(`x = int((base_width − logo_width) × relX)`, Python `int()`, not `round`),
then margin is added when the relative coordinate is 0, subtracted when it is
1, and left unchanged when it is 1/2; an explicit custom position skips the
anchor computation entirely. -/
theorem c3_anchor_truncates (name : String) (relX relY : ℚ)
    (h : LOGO_POSITIONS name = some (relX, relY)) :
    ((relX = 0 ∨ relX = 1/2 ∨ relX = 1) ∧ (relY = 0 ∨ relY = 1/2 ∨ relY = 1)) ∧
    (∀ (W H : Nat) (lw lh m : Int) (sz op : ℚ),
      rawPosition W H lw lh ⟨name, sz, op, m, none⟩ =
        (truncAnchorCoord (W : Int) lw relX m, truncAnchorCoord (H : Int) lh relY m)) ∧
    (∀ (W H : Nat) (lw lh m : Int) (sz op : ℚ) (p : Int × Int),
      rawPosition W H lw lh ⟨name, sz, op, m, some p⟩ = p) := by
  refine ⟨?_, ?_, ?_⟩
  · unfold LOGO_POSITIONS at h
    split_ifs at h <;>
      simp only [Option.some.injEq, Prod.mk.injEq] at h <;>
      obtain ⟨hx, hy⟩ := h <;> subst hx <;> subst hy <;> norm_num
  · intro W H lw lh m sz op
    unfold rawPosition truncAnchorCoord
    simp only [h]
  · intro W H lw lh m sz op p
    rfl

/-- C3 witness: the amended theorem at the `top_left` anchor, a 100×50 base,
a 10×5 logo and margin 20. -/
theorem c3_anchor_truncates_witness :
    rawPosition 100 50 10 5 ⟨"top_left", 1/10, 4/5, 20, none⟩ =
      (truncAnchorCoord 100 10 0 20, truncAnchorCoord 50 5 0 20) :=
  (c3_anchor_truncates "top_left" 0 0 (by with_unfolding_all decide)).2.1
    100 50 10 5 20 (1/10) (4/5)

theorem resizeImg_width (img : RasterImage) (w h : Nat) :
    (resizeImg img w h).width = w := rfl

theorem resizeImg_height (img : RasterImage) (w h : Nat) :
    (resizeImg img w h).height = h := rfl

theorem clampCoord_spec (v limit : Int) :
    0 ≤ clampCoord v limit ∧ (0 ≤ limit → clampCoord v limit ≤ limit) ∧
    (limit < 0 → clampCoord v limit = 0) := by
  unfold clampCoord
  rcases le_total v limit with h | h <;> simp [min_def, max_def, h] <;>
    split_ifs <;> omega

/-- C4 (confirmed): whatever produced the pre-clamp position (anchor or
custom), the final placement is clamped to `[0, base − logo]` in each
dimension; when the resized logo fits the base in a dimension the logo
rectangle lies inside the base bounds there, and when it is larger the origin
is forced to 0 instead of failing. -/
theorem c4_clamped_within_bounds (st : ProcState) (image : RasterImage)
    (k : LogoKwargs) (resized : RasterImage) (x y : Int)
    (h : compositeParams st image k = some (resized, x, y)) :
    0 ≤ x ∧ 0 ≤ y ∧
    ((resized.width : Int) ≤ (image.width : Int) →
      x + resized.width ≤ (image.width : Int)) ∧
    ((image.width : Int) < resized.width → x = 0) ∧
    ((resized.height : Int) ≤ (image.height : Int) →
      y + resized.height ≤ (image.height : Int)) ∧
    ((image.height : Int) < resized.height → y = 0) := by
  unfold compositeParams at h
  cases hc : st.current_logo with
  | none =>
    rw [hc] at h
    simp at h
  | some logo =>
    rw [hc] at h
    dsimp only at h
    by_cases hw : logo.width = 0
    · rw [if_pos hw] at h
      simp at h
    · rw [if_neg hw] at h
      set rs := resolveSettings k with hrs
      set lw := logoWidthOf image.width rs.size with hlwdef
      set lh := logoHeightOf logo lw with hlhdef
      by_cases hneg : lw < 0 ∨ lh < 0
      · rw [if_pos hneg] at h
        simp at h
      · rw [if_neg hneg] at h
        push_neg at hneg
        obtain ⟨hlw0, hlh0⟩ := hneg
        simp only [Option.some.injEq, Prod.mk.injEq] at h
        obtain ⟨hres, hx, hy⟩ := h
        have hwidth : resized.width = lw.toNat := by
          rw [← hres, applyOpacity_width, resizeImg_width]
        have hheight : resized.height = lh.toNat := by
          rw [← hres, applyOpacity_height, resizeImg_height]
        obtain ⟨hx1, hx2, hx3⟩ :=
          clampCoord_spec (rawPosition image.width image.height lw lh rs).1
            ((image.width : Int) - lw)
        obtain ⟨hy1, hy2, hy3⟩ :=
          clampCoord_spec (rawPosition image.width image.height lw lh rs).2
            ((image.height : Int) - lh)
        rw [hwidth, hheight]
        refine ⟨?_, ?_, ?_, ?_, ?_, ?_⟩ <;> omega

/-- C4 witness: the clamp bounds at the concrete composite of
`stW`/`baseW`/`kW`. -/
theorem c4_clamped_within_bounds_witness :
    (0 : Int) ≤ 0 ∧ (0 : Int) ≤ 0 ∧
    ((resizedW.width : Int) ≤ (baseW.width : Int) →
      (0 : Int) + resizedW.width ≤ (baseW.width : Int)) ∧
    ((baseW.width : Int) < resizedW.width → (0 : Int) = 0) ∧
    ((resizedW.height : Int) ≤ (baseW.height : Int) →
      (0 : Int) + resizedW.height ≤ (baseW.height : Int)) ∧
    ((baseW.height : Int) < resizedW.height → (0 : Int) = 0) :=
  c4_clamped_within_bounds stW baseW kW resizedW 0 0 (by with_unfolding_all rfl)

theorem applyOpacity_one (img : RasterImage) : applyOpacity img 1 = img := by
  unfold applyOpacity
  rw [if_neg (lt_irrefl 1)]

theorem compositeParams_opacity_one (st : ProcState) (image : RasterImage)
    (k : LogoKwargs) (h : (resolveSettings k).opacity = 1) :
    compositeParams st image k = compositeParamsNoAlpha st image k := by
  unfold compositeParams compositeParamsNoAlpha
  cases st.current_logo with
  | none => rfl
  | some logo =>
    dsimp only
    rw [h, applyOpacity_one]

/-- C6 (confirmed): compositing with `opacity = 1.0` skips the alpha-scaling
step entirely, producing output byte-identical to compositing with no alpha
scaling applied; when `opacity < 1.0` the logo's alpha channel is multiplied
by the opacity (an alpha channel being created first, fully opaque, when the
logo has none), leaving the colour channels untouched. -/
theorem c6_opacity_semantics (st : ProcState) (image : RasterImage)
    (k : LogoKwargs) (lg : RasterImage) (op : ℚ)
    (h1 : k.opacity = some 1) (h2 : op < 1) :
    applyLogo st image k = applyLogoNoAlpha st image k ∧
    (applyOpacity lg op).hasAlpha = true ∧
    (∀ i j : Nat,
      ((applyOpacity lg op).pixel i j).r = (lg.pixel i j).r ∧
      ((applyOpacity lg op).pixel i j).g = (lg.pixel i j).g ∧
      ((applyOpacity lg op).pixel i j).b = (lg.pixel i j).b ∧
      ((applyOpacity lg op).pixel i j).a =
        scaleAlpha (if lg.hasAlpha then (lg.pixel i j).a else 255) op) := by
  have hop : (resolveSettings k).opacity = 1 := by
    simp [resolveSettings, h1]
  refine ⟨?_, ?_, ?_⟩
  · unfold applyLogo applyLogoNoAlpha
    rw [compositeParams_opacity_one st image k hop]
  · cases hA : lg.hasAlpha <;>
      simp [applyOpacity, if_pos h2, putalphaScaled, toRGBA, hA]
  · intro i j
    cases hA : lg.hasAlpha <;>
      simp [applyOpacity, if_pos h2, putalphaScaled, toRGBA, hA]

/-- C6 witness: `opacity = 1` at the concrete state, plus a concrete alpha
sample at `opacity = 1/2`. -/
theorem c6_opacity_semantics_witness :
    applyLogo stW baseW { opacity := some 1 } =
      applyLogoNoAlpha stW baseW { opacity := some 1 } ∧
    (applyOpacity logoW (1/2)).hasAlpha = true ∧
    ((applyOpacity logoW (1/2)).pixel 0 0).a =
      scaleAlpha (if logoW.hasAlpha then (logoW.pixel 0 0).a else 255) (1/2) := by
  have h := c6_opacity_semantics stW baseW { opacity := some 1 } logoW (1/2)
    rfl (by norm_num)
  exact ⟨h.1, h.2.1, (h.2.2 0 0).2.2.2⟩

/-- C7 (confirmed): a position name outside the nine enumerated anchors does
not make `apply_logo` fail — the computation proceeds exactly as if
`bottom_right` had been requested (image_processor.py lines 321-324). -/
theorem c7_unknown_position_fallback (st : ProcState) (image : RasterImage)
    (k : LogoKwargs) (p : String) (h : LOGO_POSITIONS p = none) :
    applyLogo st image { k with position := some p } =
      applyLogo st image { k with position := some "bottom_right" } := by
  have hbr : LOGO_POSITIONS "bottom_right" = some (1, 1) := by
    with_unfolding_all decide
  have hcp : compositeParams st image { k with position := some p } =
      compositeParams st image { k with position := some "bottom_right" } := by
    unfold compositeParams
    cases st.current_logo with
    | none => rfl
    | some logo =>
      dsimp only
      unfold rawPosition
      simp only [resolveSettings, Option.getD_some, h, hbr]
  unfold applyLogo
  rw [hcp]

/-- C7 witness: the unknown name `middle` composites exactly like
`bottom_right`. -/
theorem c7_unknown_position_fallback_witness :
    applyLogo stW baseW { position := some "middle" } =
      applyLogo stW baseW { position := some "bottom_right" } :=
  c7_unknown_position_fallback stW baseW {} "middle" (by with_unfolding_all decide)

/-- C8 (confirmed): every successful composite pastes onto a copy of the base
image: the output has exactly the base's dimensions, and every pixel outside
the clamped logo rectangle equals the corresponding base pixel. -/
theorem c8_output_frame (st : ProcState) (image : RasterImage) (k : LogoKwargs)
    (resized : RasterImage) (x y : Int)
    (h : compositeParams st image k = some (resized, x, y)) :
    applyLogo st image k = some (pasteImg image resized x y) ∧
    (pasteImg image resized x y).width = image.width ∧
    (pasteImg image resized x y).height = image.height ∧
    ∀ i j : Nat,
      ¬(x ≤ (i : Int) ∧ (i : Int) < x + resized.width ∧
        y ≤ (j : Int) ∧ (j : Int) < y + resized.height) →
      (pasteImg image resized x y).pixel i j = image.pixel i j := by
  refine ⟨?_, rfl, rfl, ?_⟩
  · unfold applyLogo
    rw [h]
    rfl
  · intro i j hij
    unfold pasteImg
    dsimp only
    rw [if_neg hij]

/-- C8 witness: the concrete composite of `stW`/`baseW`/`kW`, with the pixel
at (5, 5) — outside the 2×2 logo rectangle at the origin — unchanged. -/
theorem c8_output_frame_witness :
    applyLogo stW baseW kW = some (pasteImg baseW resizedW 0 0) ∧
    (pasteImg baseW resizedW 0 0).pixel 5 5 = baseW.pixel 5 5 := by
  have h := c8_output_frame stW baseW kW resizedW 0 0 (by with_unfolding_all rfl)
  exact ⟨h.1, h.2.2.2 5 5 (by with_unfolding_all decide)⟩

theorem Store.alloc_fst (s : Store) (img : RasterImage) :
    (s.alloc img).1 = s.imgs.length := rfl

theorem Store.get_alloc_self (s : Store) (img : RasterImage) :
    (s.alloc img).2.get (s.alloc img).1 = img := by
  unfold Store.alloc Store.get
  simp [List.getElem?_concat_length]

theorem Store.get_alloc_length (s : Store) (img : RasterImage) :
    (s.alloc img).2.get s.imgs.length = img :=
  Store.get_alloc_self s img

theorem Store.get_alloc_lt (s : Store) (img : RasterImage) {r : Nat}
    (h : r < s.imgs.length) : (s.alloc img).2.get r = s.get r := by
  unfold Store.alloc Store.get
  rw [List.getElem?_append_left h]

theorem Store.get_set_self (s : Store) (img : RasterImage) {r : Nat}
    (h : r < s.imgs.length) : (s.set r img).get r = img := by
  unfold Store.set Store.get
  rw [List.getElem?_set_self h]
  rfl

theorem Store.get_set_ne (s : Store) (img : RasterImage) {r r' : Nat}
    (h : r' ≠ r) : (s.set r' img).get r = s.get r := by
  unfold Store.set Store.get
  rw [List.getElem?_set_ne h]

theorem Store.length_alloc (s : Store) (img : RasterImage) :
    (s.alloc img).2.imgs.length = s.imgs.length + 1 := by
  unfold Store.alloc
  simp

theorem Store.length_set (s : Store) (r : Nat) (img : RasterImage) :
    (s.set r img).imgs.length = s.imgs.length := by
  unfold Store.set
  simp

theorem applyLogoProg_spec (s : Store) (lr ir : Nat) (k : LogoKwargs) :
    (applyLogoProg s (some lr) ir k).1 =
      (applyLogo ⟨some (s.get lr)⟩ (s.get ir) k).map
        (fun _ => s.imgs.length) ∧
    (∀ r, r < s.imgs.length →
      ((applyLogoProg s (some lr) ir k).2).get r = s.get r) ∧
    (∀ out, applyLogo ⟨some (s.get lr)⟩ (s.get ir) k = some out →
      ((applyLogoProg s (some lr) ir k).2).get s.imgs.length = out) ∧
    s.imgs.length < ((applyLogoProg s (some lr) ir k).2).imgs.length := by
  unfold applyLogoProg applyLogo compositeParams
  dsimp only
  set image := s.get ir with himage
  set logo := s.get lr with hlogo
  set rs := resolveSettings k with hrs
  set lw := logoWidthOf image.width rs.size with hlw
  set lh := logoHeightOf logo lw with hlh
  by_cases hw : logo.width = 0
  · simp only [if_pos hw]
    refine ⟨by simp, fun r hr => Store.get_alloc_lt _ _ hr,
      fun out hout => by simp at hout, ?_⟩
    rw [Store.length_alloc]
    omega
  · simp only [if_neg hw]
    by_cases hneg : lw < 0 ∨ lh < 0
    · simp only [if_pos hneg]
      refine ⟨by simp, fun r hr => Store.get_alloc_lt _ _ hr,
        fun out hout => by simp at hout, ?_⟩
      rw [Store.length_alloc]
      omega
    · simp only [if_neg hneg]
      set rz := resizeImg logo lw.toNat lh.toNat with hrz
      simp only [Store.get_alloc_self]
      by_cases hop : rs.opacity < 1
      · simp only [if_pos hop]
        by_cases hA : rz.hasAlpha = true
        · rw [if_pos hA]
          dsimp only
          simp only [Store.get_alloc_self]
          simp only [Store.alloc_fst, Store.length_alloc]
          have e1 : s.imgs.length + 1 ≠ s.imgs.length := by omega
          have e2 : s.imgs.length < ((s.alloc image).2).imgs.length := by
            rw [Store.length_alloc]
            omega
          have e3 : s.imgs.length + 1 < (((s.alloc image).2.alloc rz).2).imgs.length := by
            simp only [Store.length_alloc]
            omega
          have e4 : s.imgs.length <
              ((((s.alloc image).2.alloc rz).2.set (s.imgs.length + 1)
                (putalphaScaled rz rs.opacity)).imgs.length) := by
            simp only [Store.length_set, Store.length_alloc]
            omega
          refine ⟨?_, ?_, ?_, ?_⟩
          · simp [Store.alloc_fst]
          · intro r hr
            have h1 : s.imgs.length ≠ r := by omega
            have h2 : s.imgs.length + 1 ≠ r := by omega
            have hr1 : r < ((s.alloc image).2).imgs.length := by
              rw [Store.length_alloc]
              omega
            simp only [Store.get_set_ne _ _ h1, Store.get_set_ne _ _ h2,
              Store.get_alloc_lt _ _ hr1, Store.get_alloc_lt _ _ hr]
          · intro out hout
            rw [Option.map_some', Option.some.injEq] at hout
            subst hout
            simp only [Store.get_set_self _ _ e4, Store.get_set_ne _ _ e1,
              Store.get_set_self _ _ e3, Store.get_alloc_lt _ _ e2,
              Store.get_alloc_length]
            simp only [applyOpacity]
            rw [if_pos hop, if_pos hA]
          · simp only [Store.length_set, Store.length_alloc]
            omega
        · rw [if_neg hA]
          simp only [Store.get_alloc_self]
          simp only [Store.alloc_fst, Store.length_alloc]
          have e1 : s.imgs.length + 1 + 1 ≠ s.imgs.length := by omega
          have e2 : s.imgs.length < ((s.alloc image).2).imgs.length := by
            rw [Store.length_alloc]
            omega
          have e2b : s.imgs.length < (((s.alloc image).2.alloc rz).2).imgs.length := by
            simp only [Store.length_alloc]
            omega
          have e3 : s.imgs.length + 1 + 1 <
              ((((s.alloc image).2.alloc rz).2.alloc (toRGBA rz)).2).imgs.length := by
            simp only [Store.length_alloc]
            omega
          have e4 : s.imgs.length <
              (((((s.alloc image).2.alloc rz).2.alloc (toRGBA rz)).2.set
                (s.imgs.length + 1 + 1)
                (putalphaScaled (toRGBA rz) rs.opacity)).imgs.length) := by
            simp only [Store.length_set, Store.length_alloc]
            omega
          refine ⟨?_, ?_, ?_, ?_⟩
          · simp [Store.alloc_fst]
          · intro r hr
            have h1 : s.imgs.length ≠ r := by omega
            have h3 : s.imgs.length + 1 + 1 ≠ r := by omega
            have hr1 : r < ((s.alloc image).2).imgs.length := by
              rw [Store.length_alloc]
              omega
            have hr2 : r < (((s.alloc image).2.alloc rz).2).imgs.length := by
              simp only [Store.length_alloc]
              omega
            simp only [Store.get_set_ne _ _ h1, Store.get_set_ne _ _ h3,
              Store.get_alloc_lt _ _ hr2, Store.get_alloc_lt _ _ hr1,
              Store.get_alloc_lt _ _ hr]
          · intro out hout
            rw [Option.map_some', Option.some.injEq] at hout
            subst hout
            simp only [Store.get_set_self _ _ e4, Store.get_set_ne _ _ e1,
              Store.get_set_self _ _ e3, Store.get_alloc_lt _ _ e2b,
              Store.get_alloc_lt _ _ e2, Store.get_alloc_length]
            simp only [applyOpacity]
            rw [if_pos hop, if_neg hA]
          · simp only [Store.length_set, Store.length_alloc]
            omega
      · simp only [if_neg hop]
        simp only [Store.get_alloc_self]
        simp only [Store.alloc_fst, Store.length_alloc]
        have e2 : s.imgs.length < ((s.alloc image).2).imgs.length := by
          rw [Store.length_alloc]
          omega
        have e4 : s.imgs.length < ((((s.alloc image).2.alloc rz).2).imgs.length) := by
          simp only [Store.length_alloc]
          omega
        refine ⟨?_, ?_, ?_, ?_⟩
        · simp [Store.alloc_fst]
        · intro r hr
          have h1 : s.imgs.length ≠ r := by omega
          have hr1 : r < ((s.alloc image).2).imgs.length := by
            rw [Store.length_alloc]
            omega
          simp only [Store.get_set_ne _ _ h1, Store.get_alloc_lt _ _ hr1,
            Store.get_alloc_lt _ _ hr]
        · intro out hout
          rw [Option.map_some', Option.some.injEq] at hout
          subst hout
          simp only [Store.get_set_self _ _ e4, Store.get_alloc_lt _ _ e2,
            Store.get_alloc_length, Store.get_alloc_self]
          simp only [applyOpacity]
          rw [if_neg hop]
        · simp only [Store.length_set, Store.length_alloc]
          omega

/-- C10 (confirmed): `apply_logo` mutates neither any pre-existing image in
the heap — in particular neither the base image nor the stored logo — and two
successive calls with the same base image and settings return pixel-identical
results. -/
theorem c10_no_mutation (s : Store) (lr ir : Nat) (k : LogoKwargs)
    (hl : lr < s.imgs.length) (hi : ir < s.imgs.length) :
    (∀ r, r < s.imgs.length →
      ((applyLogoProg s (some lr) ir k).2).get r = s.get r) ∧
    (∀ r1 r2 : Nat,
      (applyLogoProg s (some lr) ir k).1 = some r1 →
      (applyLogoProg (applyLogoProg s (some lr) ir k).2 (some lr) ir k).1 = some r2 →
      ((applyLogoProg (applyLogoProg s (some lr) ir k).2 (some lr) ir k).2).get r1 =
        ((applyLogoProg (applyLogoProg s (some lr) ir k).2 (some lr) ir k).2).get r2) := by
  obtain ⟨hfst, hframe, hcontent, hlen⟩ := applyLogoProg_spec s lr ir k
  refine ⟨hframe, ?_⟩
  intro r1 r2 h1 h2
  set s1 := (applyLogoProg s (some lr) ir k).2 with hs1
  obtain ⟨hfst', hframe', hcontent', hlen'⟩ := applyLogoProg_spec s1 lr ir k
  rw [hfst] at h1
  cases hp : applyLogo ⟨some (s.get lr)⟩ (s.get ir) k with
  | none =>
    rw [hp] at h1
    simp at h1
  | some out =>
    rw [hp] at h1
    simp only [Option.map_some', Option.some.injEq] at h1
    have hglr : s1.get lr = s.get lr := hframe lr hl
    have hgir : s1.get ir = s.get ir := hframe ir hi
    rw [hfst', hglr, hgir, hp] at h2
    simp only [Option.map_some', Option.some.injEq] at h2
    have hc1 : s1.get s.imgs.length = out := hcontent out hp
    have hc2 : ((applyLogoProg s1 (some lr) ir k).2).get s1.imgs.length = out := by
      apply hcontent'
      rw [hglr, hgir, hp]
    have hfr1 : ((applyLogoProg s1 (some lr) ir k).2).get s.imgs.length =
        s1.get s.imgs.length := hframe' _ hlen
    rw [← h1, ← h2, hfr1, hc1, hc2]

/-- C10 witness: on the concrete heap, the stored logo (handle 0) is intact
after a call, and the results of two successive calls (handles 2 and 5) hold
identical images. -/
theorem c10_no_mutation_witness :
    ((applyLogoProg storeW (some 0) 1 ({} : LogoKwargs)).2).get 0 = storeW.get 0 ∧
    ((applyLogoProg (applyLogoProg storeW (some 0) 1 ({} : LogoKwargs)).2
        (some 0) 1 ({} : LogoKwargs)).2).get 2 =
      ((applyLogoProg (applyLogoProg storeW (some 0) 1 ({} : LogoKwargs)).2
        (some 0) 1 ({} : LogoKwargs)).2).get 5 := by
  have h := c10_no_mutation storeW 0 1 {} (by decide) (by decide)
  exact ⟨h.1 0 (by decide),
    h.2 2 5 (by with_unfolding_all decide) (by with_unfolding_all decide)⟩
